import Mathlib

/-!
Verification of the module/version/directory resolution engine of pkgsite's
postgres layer, as described by its specification.  The implementation files
(`internal/postgres/details.go`, `internal/postgres/directory.go`) are not part
of the provided sources; every operation below is therefore modelled from the
specification together with the behavior pinned down by the tests in
`internal/postgres/details_test.go` and `internal/postgres/directory_test.go`.
-/

namespace Pkgsite

/-! ## Version ordering (spec section 4.1, VersionOrder) -/

/-- Modelled from the spec: a prerelease identifier is numeric or textual.
The textual payload is kept as a list of characters so that the lexical
comparison below is a plain structural recursion. -/
inductive PreId where
  | num (n : Nat)
  | str (s : List Char)
deriving DecidableEq

/-- Modelled from the spec: a parsed semantic version, `major.minor.patch`
with an optional prerelease component (empty list = no prerelease).  Build
metadata is ignored for ordering, so it is dropped at parse time. -/
structure SemVer where
  major : Nat
  minor : Nat
  patch : Nat
  prerelease : List PreId
deriving DecidableEq

/-- Split a character list on a separator character, like `strings.Split`. -/
def splitOn (sep : Char) : List Char → List (List Char)
  | [] => [[]]
  | c :: cs =>
    match splitOn sep cs with
    | [] => [[c]]
    | h :: t => if c = sep then [] :: h :: t else (c :: h) :: t

/-- Numeric value of a list of decimal digit characters. -/
def digitsVal (l : List Char) : Nat :=
  l.foldl (fun acc c => acc * 10 + (c.toNat - 48)) 0

/-- Parse a non-empty all-digit character list as a natural number. -/
def parseNatChars (l : List Char) : Option Nat :=
  if l.isEmpty then none
  else if l.all Char.isDigit then some (digitsVal l) else none

/-- Modelled from the spec: a prerelease identifier is numeric when it is a
non-empty string of digits, textual otherwise. -/
def parsePreId (l : List Char) : PreId :=
  if !l.isEmpty && l.all Char.isDigit then PreId.num (digitsVal l) else PreId.str l

/-- Modelled from the spec: parse a `vMAJOR.MINOR.PATCH[-PRERELEASE][+BUILD]`
version string.  The prerelease component is everything after the first `-`
(up to any `+`), split on `.`; build metadata is dropped. -/
def parseVersion (v : String) : Option SemVer :=
  match v.data with
  | [] => none
  | c :: rest =>
    if c = 'v' then
      let noBuild := rest.takeWhile (fun ch => ch ≠ '+')
      let core := noBuild.takeWhile (fun ch => ch ≠ '-')
      let preRaw := noBuild.dropWhile (fun ch => ch ≠ '-')
      let pre : List PreId :=
        match preRaw with
        | [] => []
        | _ :: body => (splitOn '.' body).map parsePreId
      match splitOn '.' core with
      | [ma, mi, pa] =>
        match parseNatChars ma, parseNatChars mi, parseNatChars pa with
        | some a, some b, some p => some ⟨a, b, p, pre⟩
        | _, _, _ => none
      | _ => none
    else none

/-- Lexical comparison of characters via their code points. -/
def cmpChar (a b : Char) : Ordering := compare a.toNat b.toNat

/-- Lexicographic comparison of character lists (lexical string order). -/
def cmpChars : List Char → List Char → Ordering
  | [], [] => .eq
  | [], _ :: _ => .lt
  | _ :: _, [] => .gt
  | a :: as, b :: bs => (cmpChar a b).then (cmpChars as bs)

/-- Modelled from the spec: numeric identifiers compare numerically, textual
identifiers compare lexically, and a numeric identifier is less than a
textual one. -/
def cmpPreId : PreId → PreId → Ordering
  | .num m, .num n => compare m n
  | .num _, .str _ => .lt
  | .str _, .num _ => .gt
  | .str s, .str t => cmpChars s t

/-- Modelled from the spec: prerelease identifier lists compare
identifier-by-identifier; all else equal, the shorter list is smaller. -/
def cmpPre : List PreId → List PreId → Ordering
  | [], [] => .eq
  | [], _ :: _ => .lt
  | _ :: _, [] => .gt
  | a :: as, b :: bs => (cmpPreId a b).then (cmpPre as bs)

/-- Modelled from the spec: a version without a prerelease component is
strictly greater than the same version with one; two prerelease components
compare with `cmpPre`. -/
def cmpRelease : List PreId → List PreId → Ordering
  | [], [] => .eq
  | [], _ :: _ => .gt
  | _ :: _, [] => .lt
  | a :: as, b :: bs => cmpPre (a :: as) (b :: bs)

/-- Modelled from the spec: semantic-version precedence — numeric comparison
of major.minor.patch, then the prerelease rule. -/
def cmpSemVer (a b : SemVer) : Ordering :=
  (compare a.major b.major).then
    ((compare a.minor b.minor).then
      ((compare a.patch b.patch).then (cmpRelease a.prerelease b.prerelease)))

/-- Modelled from the spec: `Compare` on version strings.  Unparseable
strings sort below parseable ones and equal to each other, matching
`golang.org/x/mod/semver.Compare`'s treatment of invalid versions. -/
def compareVersions (v1 v2 : String) : Ordering :=
  match parseVersion v1, parseVersion v2 with
  | some a, some b => cmpSemVer a b
  | some _, none => .gt
  | none, some _ => .lt
  | none, none => .eq

/-- A version string is a release when it parses and has no prerelease
component (pseudo-versions carry a prerelease component, so they are never
releases). -/
def isReleaseVersion (v : String) : Bool :=
  match parseVersion v with
  | some sv => sv.prerelease.isEmpty
  | none => false

/-- Rank used by the latest-version selector: releases above everything else. -/
def releaseRank (v : String) : Nat := if isReleaseVersion v then 1 else 0

/-- Modelled from the spec and the test `TestPostgres_GetVersionInfo_Latest`:
the selection order for "latest" prefers release versions over prerelease and
pseudo-versions (the test case named "largest release" expects `v1.0.0` to win
over `v1.1.0-alpha.1`), and within the same class uses `compareVersions`. -/
def latestCmp (v1 v2 : String) : Ordering :=
  (compare (releaseRank v1) (releaseRank v2)).then (compareVersions v1 v2)

/-- Modelled from the spec: `SelectLatest` returns the maximum of the
candidate set under the latest-selection order (`none` on an empty set, which
the caller reports as `NotFound`). -/
def selectLatest (versions : List String) : Option String :=
  match versions with
  | [] => none
  | v :: vs => some (vs.foldl (fun best w => if latestCmp w best = .gt then w else best) v)

/-! ## Data model (spec section 3) -/

/-- Modelled from the spec: a README file owned by a Directory. -/
structure Readme where
  filepath : String
  contents : String
deriving DecidableEq

/-- Modelled from the spec: a Package rooted at a directory path — name,
documentation payload (synopsis and rendered HTML), licenses and imports. -/
structure Package where
  name : String
  path : String
  synopsis : String
  documentationHTML : String
  licenses : List String
  imports : List String
deriving DecidableEq

/-- Modelled from the spec: a Directory node — a path inside a module
version, optionally owning one package and one readme. -/
structure Directory where
  path : String
  readme : Option Readme
  package : Option Package
deriving DecidableEq

/-- Modelled from the spec: a Module snapshot, identified by (path, version),
owning a collection of Directory nodes. -/
structure Module where
  modulePath : String
  version : String
  directories : List Directory
deriving DecidableEq

/-- The persisted store: the collection of committed module snapshots. -/
abbrev Store := List Module

/-- Modelled from the spec: the error kinds of the resolution layer
(section 7).  Only `notFound` is produced by the operations modelled here. -/
inductive DbError where
  | notFound
  | invalidVersion
  | internal
deriving DecidableEq

/-- Result of a fallible store operation. -/
inductive DbResult (α : Type) where
  | ok (value : α)
  | error (e : DbError)
deriving DecidableEq

/-! ## Path containment (spec section 4.3, PathContainment) -/

/-- Boolean list-prefix test, used for the segment-boundary rule. -/
def isPre : List Char → List Char → Bool
  | [], _ => true
  | _ :: _, [] => false
  | a :: as, b :: bs => a = b && isPre as bs

/-- Modelled from the spec: `Contains(directoryPath, queryPath)` is true iff
`directoryPath == queryPath` or `directoryPath` starts with
`queryPath + "/"`. -/
def contains (directoryPath queryPath : String) : Bool :=
  directoryPath = queryPath || isPre (queryPath.data ++ [ '/' ]) directoryPath.data

/-! ## Module candidate resolution (spec section 4.2) -/

/-- A module snapshot has a directory record satisfying containment of the
query path (used by the directory-level operations). -/
def Module.hasDirUnder (m : Module) (dirPath : String) : Bool :=
  m.directories.any (fun d => contains d.path dirPath)

/-- A module snapshot has a package satisfying containment of the query path
(used by the legacy package-level operations). -/
def Module.hasPkgUnder (m : Module) (dirPath : String) : Bool :=
  m.directories.any (fun d => d.package.isSome && contains d.path dirPath)

/-- Modelled from the spec: `CandidateVersions` — the versions persisted for
`mp` whose snapshot has matching data for the query (`hasData` is the
containment test of the operation at hand). -/
def candidateVersions (store : Store) (mp : String) (hasData : Module → Bool) : List String :=
  (store.filter (fun m => m.modulePath = mp && hasData m)).map (·.version)

/-- The requested version: a concrete version string or the Latest sentinel. -/
inductive VersionReq where
  | latest
  | concrete (v : String)
deriving DecidableEq

/-- The requested module path: a concrete path or the Unknown sentinel. -/
inductive ModReq where
  | unknown
  | concrete (mp : String)
deriving DecidableEq

/-- Modelled from the spec: Case A of the resolver — with a concrete module
path, Latest selects `selectLatest` of the candidate versions, and a concrete
version must be a member of the candidate versions. -/
def resolveCaseA (store : Store) (mp : String) (vreq : VersionReq)
    (hasData : Module → String → Bool) (dirPath : String) : Option (String × String) :=
  let cands := candidateVersions store mp (fun m => hasData m dirPath)
  match vreq with
  | .latest => (selectLatest cands).map (fun v => (mp, v))
  | .concrete v => if cands.contains v then some (mp, v) else none

/-- Every `/`-boundary path-prefix of `dirPath`, longest first (the full path
itself down to its first segment). -/
def pathPrefixes (dirPath : String) : List String :=
  let segs := (splitOn '/' dirPath.data).map (fun l => String.mk l)
  (List.range segs.length).map
    (fun i => String.intercalate "/" (segs.take (segs.length - i)))

/-- The standard-library module only matches paths that do not follow the
domain-qualified module-path shape (first segment contains no dot). -/
def stdlibShaped (dirPath : String) : Bool :=
  match splitOn '/' dirPath.data with
  | seg :: _ => !seg.contains '.'
  | [] => true

/-- Modelled from the spec: the ordered candidate module paths for the
Unknown sentinel — every `/`-boundary prefix of `dirPath`, longest first,
plus the standard-library module when the path is stdlib-shaped. -/
def candidateModulePaths (dirPath : String) : List String :=
  pathPrefixes dirPath ++ (if stdlibShaped dirPath then ["std"] else [])

/-- First success of `f` over a list, as in the first-success candidate scan. -/
def firstSome (f : α → Option β) : List α → Option β
  | [] => none
  | a :: as =>
    match f a with
    | some b => some b
    | none => firstSome f as

/-- Modelled from the spec: the resolver — Case A for a concrete module path,
and for the Unknown sentinel the first candidate module path for which
Case A succeeds. -/
def resolveModuleVersion (store : Store) (dirPath : String) (mreq : ModReq)
    (vreq : VersionReq) (hasData : Module → String → Bool) : Option (String × String) :=
  match mreq with
  | .concrete mp => resolveCaseA store mp vreq hasData dirPath
  | .unknown =>
      firstSome (fun mp => resolveCaseA store mp vreq hasData dirPath)
        (candidateModulePaths dirPath)

/-- Find the unique snapshot for an exact (module path, version). -/
def findModule (store : Store) (mp v : String) : Option Module :=
  store.find? (fun m => m.modulePath = mp && m.version = v)

/-! ## Field projection (spec section 4.4, FieldProjector) -/

/-- The requested field-set level. -/
inductive FieldSet where
  | minimal
  | all
deriving DecidableEq

/-- Modelled from the spec: the fixed "field omitted" sentinel string
(`internal.StringFieldMissing` in the source tree). -/
def stringFieldMissing : String := "!MISSING"

/-- Modelled from the spec: the field projector — `minimal` replaces the
rendered documentation payload with the sentinel and leaves every other field
untouched; `all` is the identity. -/
def projectPackage : FieldSet → Package → Package
  | .all, p => p
  | .minimal, p => { p with documentationHTML := stringFieldMissing }

/-! ## Public operations (spec section 6) -/

/-- The readme of the module's root directory (the directory whose path is
the module path itself). -/
def rootReadme (m : Module) : Option Readme :=
  match m.directories.find? (fun d => d.path = m.modulePath) with
  | some d => d.readme
  | none => none

/-- Modelled from the spec: the result of `Resolve`/`GetDirectory` — resolved
module path, resolved version, and the matched Directory. -/
structure VersionedDirectory where
  modulePath : String
  version : String
  directory : Directory
deriving DecidableEq

/-- Modelled from the spec and `TestGetDirectory`: `GetDirectory` resolves
the query, returns the directory record whose path is exactly `dirPath`, and
— per the golang/go#38513 workaround pinned by the test — carries the
module root's readme rather than the matched directory's own. -/
def getDirectory (store : Store) (dirPath : String) (mreq : ModReq)
    (vreq : VersionReq) : DbResult VersionedDirectory :=
  match resolveModuleVersion store dirPath mreq vreq Module.hasDirUnder with
  | none => .error .notFound
  | some (mp, v) =>
    match findModule store mp v with
    | none => .error .notFound
    | some m =>
      match m.directories.find? (fun d => d.path = dirPath) with
      | none => .error .notFound
      | some d => .ok ⟨mp, v, { d with readme := rootReadme m }⟩

/-- The packages owned by directories contained under `dirPath`. -/
def packagesUnder (m : Module) (dirPath : String) : List Package :=
  (m.directories.filter (fun d => contains d.path dirPath)).filterMap (·.package)

/-- Modelled from the spec: the result of `LegacyGetDirectory` — resolved
module path and version, the queried path, and the packages in the matched
subtree. -/
structure LegacyDirectory where
  modulePath : String
  version : String
  path : String
  packages : List Package
deriving DecidableEq

/-- Modelled from the spec and `TestLegacyGetDirectory`: resolve with
package-level containment, then return every package contained under
`dirPath`, field-projected. -/
def legacyGetDirectory (store : Store) (dirPath : String) (mreq : ModReq)
    (vreq : VersionReq) (fields : FieldSet) : DbResult LegacyDirectory :=
  match resolveModuleVersion store dirPath mreq vreq Module.hasPkgUnder with
  | none => .error .notFound
  | some (mp, v) =>
    match findModule store mp v with
    | none => .error .notFound
    | some m => .ok ⟨mp, v, dirPath, (packagesUnder m dirPath).map (projectPackage fields)⟩

/-- Modelled from the spec and `TestGetPackagesInDirectory`: list the
packages under `dirPath` in the exact (module path, version) snapshot;
an empty result is a `notFound` error. -/
def getPackagesInDirectory (store : Store) (dirPath mp v : String) : DbResult (List Package) :=
  match findModule store mp v with
  | none => .error .notFound
  | some m =>
    let pkgs := packagesUnder m dirPath
    if pkgs.isEmpty then .error .notFound else .ok pkgs

/-- All versions persisted for a module path, in store order. -/
def moduleVersions (store : Store) (mp : String) : List String :=
  (store.filter (fun m => m.modulePath = mp)).map (·.version)

/-- Modelled from the spec and `TestPostgres_GetModuleInfo`: `GetModuleInfo`
returns the snapshot at the exact (path, version), or `notFound` when that
version is not persisted for the path. -/
def getModuleInfo (store : Store) (mp v : String) : DbResult Module :=
  match findModule store mp v with
  | some m => .ok m
  | none => .error .notFound

/-- Modelled from the spec and `TestPostgres_GetVersionInfo_Latest`:
`LegacyGetModuleInfo` resolves the Latest sentinel with `selectLatest` over
the persisted versions of the path, failing with `notFound` on an empty set. -/
def legacyGetModuleInfo (store : Store) (mp : String) (vreq : VersionReq) : DbResult Module :=
  match vreq with
  | .concrete v => getModuleInfo store mp v
  | .latest =>
    match selectLatest (moduleVersions store mp) with
    | none => .error .notFound
    | some v => getModuleInfo store mp v

/-- Modelled from the spec and `TestPostgres_GetImportsAndImportedBy`:
`GetImportedBy(path, modulePath, limit)` lists the paths of packages that
depend on `path`, excluding packages belonging to `modulePath` itself. -/
def getImportedBy (store : Store) (path mp : String) (limit : Nat) : List String :=
  (((store.filter (fun m => m.modulePath ≠ mp)).map
      (fun m => (m.directories.filterMap (·.package)).filterMap
        (fun p => if p.imports.contains path then some p.path else none))).flatten).take limit

/-! ## Documentation link rewriting (hackUpDocumentation) -/

/-- Drop a literal character sequence from the front of a list, or fail. -/
def dropLit : List Char → List Char → Option (List Char)
  | [], l => some l
  | _ :: _, [] => none
  | p :: ps, c :: cs => if p = c then dropLit ps cs else none

/-- Split a list around the first occurrence of a literal pattern: returns
the part before the pattern and the part after it. -/
def splitAtSub (pat : List Char) : List Char → Option (List Char × List Char)
  | [] =>
    match dropLit pat [] with
    | some r => some ([], r)
    | none => none
  | c :: cs =>
    match dropLit pat (c :: cs) with
    | some rest => some ([], rest)
    | none =>
      match splitAtSub pat cs with
      | some (pre, post) => some (c :: pre, post)
      | none => none

/-- The literal opening of a rewritable anchor. -/
def anchorLit : List Char := ("<a href=\"/pkg/").data

/-- The literal closing anchor tag. -/
def closeLit : List Char := ("</a>").data

/-- Modelled from the spec: the source of `hackUpDocumentation` is not under
`src/`; this matcher reproduces the behavior pinned by
`TestHackUpDocumentation`.  At the head of the input it matches a complete
anchor `<a href="/pkg/PATH[#FRAG]">BODY</a>` (with the shortest `BODY` up to
the first `</a>`), and returns the rewritten anchor
`<a href="/PATH?tab=doc[#FRAG]">BODY</a>` together with the input remaining
after the closing tag. -/
def matchAnchor (l : List Char) : Option (List Char × List Char) :=
  match dropLit anchorLit l with
  | none => none
  | some r1 =>
    let path := r1.takeWhile (fun c => c ≠ '"' && c ≠ '#')
    let r2 := r1.dropWhile (fun c => c ≠ '"' && c ≠ '#')
    let frag := r2.takeWhile (fun c => c ≠ '"')
    let r3 := r2.dropWhile (fun c => c ≠ '"')
    match r3 with
    | '"' :: '>' :: r4 =>
      match splitAtSub closeLit r4 with
      | some (body, r5) =>
        some (("<a href=\"/").data ++ path ++ ("?tab=doc").data ++ frag
              ++ ("\">").data ++ body ++ closeLit, r5)
      | none => none
    | _ => none

/-- Fuel-indexed scan over the input: rewrite a matching anchor and continue
after its closing tag, otherwise emit one character and continue.  The fuel
is the input length, which suffices because every step consumes at least one
character. -/
def hackChars : Nat → List Char → List Char
  | 0, l => l
  | _ + 1, [] => []
  | fuel + 1, c :: cs =>
    match matchAnchor (c :: cs) with
    | some (repl, rest) => repl ++ hackChars fuel rest
    | none => c :: hackChars fuel cs

/-- Modelled from the spec: `hackUpDocumentation` rewrites documentation
links of the form `<a href="/pkg/X">` to `<a href="/X?tab=doc">`, keeping any
`#fragment` after `?tab=doc`, and leaves everything else unchanged. -/
def hackUpDocumentation (body : String) : String :=
  String.mk (hackChars body.data.length body.data)

/-! ## Concrete stores mirroring the test fixtures -/

/-- Sample package for the nested-module example of the spec. -/
def pkgAB : Package :=
  { name := "api", path := "a/b/api", synopsis := "s",
    documentationHTML := "h", licenses := ["MIT"], imports := [] }

/-- The nested-module store of the spec's longest-prefix example: module
`a/b` at `v1.0.0` containing package `a/b/api`, and module `a/b/api` at
`v2.0.0`. -/
def storeC2 : Store :=
  [ { modulePath := "a/b", version := "v1.0.0",
      directories := [ { path := "a/b", readme := none, package := none },
                       { path := "a/b/api", readme := none, package := some pkgAB } ] },
    { modulePath := "a/b/api", version := "v2.0.0",
      directories := [ { path := "a/b/api", readme := none, package := some pkgAB } ] } ]

/-- Sample package for the readme fixture of `TestGetDirectory`. -/
def pkgP : Package :=
  { name := "p", path := "a.com/m/dir/p", synopsis := "s",
    documentationHTML := "h", licenses := ["MIT"], imports := [] }

/-- The readme fixture of `TestGetDirectory`: module `a.com/m` at `v1.2.3`
with distinct readmes at the root, at `dir`, and at `dir/p`. -/
def storeReadme : Store :=
  [ { modulePath := "a.com/m", version := "v1.2.3",
      directories :=
        [ { path := "a.com/m", readme := some ⟨"README.md", "readme"⟩, package := none },
          { path := "a.com/m/dir", readme := some ⟨"DIR_README.md", "dir readme"⟩,
            package := none },
          { path := "a.com/m/dir/p", readme := some ⟨"PKG_README.md", "pkg readme"⟩,
            package := some pkgP } ] } ]

/-- Helper building a sample package at a path. -/
def mkPkg (name path : String) : Package :=
  { name := name, path := path, synopsis := "s",
    documentationHTML := "h", licenses := ["MIT"], imports := [] }

/-- A standard-library snapshot with the directory subtree used by the
stdlib cases of `InsertSampleDirectoryTree`. -/
def stdMod (v : String) : Module :=
  { modulePath := "std", version := v,
    directories :=
      [ { path := "archive", readme := none, package := none },
        { path := "archive/tar", readme := none, package := some (mkPkg "tar" "archive/tar") },
        { path := "archive/zip", readme := none, package := some (mkPkg "zip" "archive/zip") },
        { path := "cmd", readme := none, package := none },
        { path := "cmd/go", readme := none, package := some (mkPkg "main" "cmd/go") },
        { path := "cmd/internal", readme := none, package := none },
        { path := "cmd/internal/obj", readme := none,
          package := some (mkPkg "obj" "cmd/internal/obj") } ] }

/-- The standard-library store: versions `v1.13.0` and `v1.13.4`. -/
def storeStd : Store := [stdMod "v1.13.0", stdMod "v1.13.4"]

/-- A `mod.1` snapshot with just a root directory, as in the module-info
tests where only (path, version) identity matters. -/
def modOne (v : String) : Module :=
  { modulePath := "mod.1", version := v,
    directories := [ { path := "mod.1", readme := none, package := none } ] }

/-- The store of `TestPostgres_GetModuleInfo`, case "version present":
versions v1.1.0, v1.0.2, v1.0.0 of `mod.1`. -/
def storeVersions : Store := [modOne "v1.1.0", modOne "v1.0.2", modOne "v1.0.0"]

/-- The store of `TestPostgres_GetVersionInfo_Latest`, case "largest
release": a prerelease, a release and a pseudo-version of `mod.1`. -/
def storeLatest : Store :=
  [modOne "v1.1.0-alpha.1", modOne "v1.0.0", modOne "v1.0.0-20190311183353-d8887717615a"]

/-- Helper building a one-package importer module for the imported-by
fixture. -/
def impMod (mp v pkgPath : String) (imps : List String) : Module :=
  { modulePath := mp, version := v,
    directories :=
      [ { path := mp, readme := none, package := none },
        { path := pkgPath, readme := none,
          package := some { name := "bar", path := pkgPath, synopsis := "s",
                            documentationHTML := "h", licenses := ["MIT"], imports := imps } } ] }

/-- The fixture of `TestPostgres_GetImportsAndImportedBy`: three modules
whose packages import each other. -/
def storeImports : Store :=
  [ impMod "path.to/foo" "v1.1.0" "path.to/foo/bar" [],
    impMod "path2.to/foo" "v1.2.0" "path2.to/foo/bar2" ["path.to/foo/bar"],
    impMod "path3.to/foo" "v1.3.0" "path3.to/foo/bar3"
      ["path2.to/foo/bar2", "path.to/foo/bar"] ]

/-! ## Order-theoretic laws of the version comparator -/

theorem charToNat_inj {a b : Char} (h : a.toNat = b.toNat) : a = b :=
  Char.eq_of_val_eq (UInt32.ext h)

theorem natCompare_swap (a b : Nat) : (compare a b).swap = compare b a := by
  rcases Nat.lt_trichotomy a b with h | h | h
  · rw [Nat.compare_eq_lt.2 h, Nat.compare_eq_gt.2 h]; rfl
  · subst h; rw [Nat.compare_eq_eq.2 rfl]; rfl
  · rw [Nat.compare_eq_gt.2 h, Nat.compare_eq_lt.2 h]; rfl

theorem natCompare_lt_trans {a b c : Nat} (h1 : compare a b = .lt) (h2 : compare b c = .lt) :
    compare a c = .lt :=
  Nat.compare_eq_lt.2 (Nat.lt_trans (Nat.compare_eq_lt.1 h1) (Nat.compare_eq_lt.1 h2))

theorem cmpChar_swap (a b : Char) : (cmpChar a b).swap = cmpChar b a :=
  natCompare_swap a.toNat b.toNat

theorem cmpChar_eq_iff {a b : Char} : cmpChar a b = .eq ↔ a = b := by
  constructor
  · exact fun h => charToNat_inj (Nat.compare_eq_eq.1 h)
  · rintro rfl; exact Nat.compare_eq_eq.2 rfl

theorem cmpChar_lt_trans {a b c : Char} (h1 : cmpChar a b = .lt) (h2 : cmpChar b c = .lt) :
    cmpChar a c = .lt :=
  natCompare_lt_trans h1 h2

theorem cmpChars_swap (s t : List Char) : (cmpChars s t).swap = cmpChars t s := by
  induction s generalizing t with
  | nil => cases t <;> rfl
  | cons a as ih =>
    cases t with
    | nil => rfl
    | cons b bs =>
      show ((cmpChar a b).then (cmpChars as bs)).swap = (cmpChar b a).then (cmpChars bs as)
      rw [Ordering.swap_then, cmpChar_swap, ih]

theorem cmpChars_eq_iff {s t : List Char} : cmpChars s t = .eq ↔ s = t := by
  induction s generalizing t with
  | nil => cases t <;> simp [cmpChars]
  | cons a as ih =>
    cases t with
    | nil => simp [cmpChars]
    | cons b bs =>
      show (cmpChar a b).then (cmpChars as bs) = .eq ↔ _
      rw [Ordering.then_eq_eq]
      simp [cmpChar_eq_iff, ih]

theorem cmpChars_lt_trans {s t u : List Char} (h1 : cmpChars s t = .lt)
    (h2 : cmpChars t u = .lt) : cmpChars s u = .lt := by
  induction s generalizing t u with
  | nil =>
    cases u with
    | nil => cases t <;> simp_all [cmpChars]
    | cons c cs => simp [cmpChars]
  | cons a as ih =>
    cases t with
    | nil => simp [cmpChars] at h1
    | cons b bs =>
      cases u with
      | nil => simp [cmpChars] at h2
      | cons c cs =>
        have h1' := Ordering.then_eq_lt.1 h1
        have h2' := Ordering.then_eq_lt.1 h2
        show (cmpChar a c).then (cmpChars as cs) = .lt
        rw [Ordering.then_eq_lt]
        rcases h1' with hab | ⟨hab, h1r⟩
        · rcases h2' with hbc | ⟨hbc, h2r⟩
          · exact Or.inl (cmpChar_lt_trans hab hbc)
          · obtain rfl := cmpChar_eq_iff.1 hbc
            exact Or.inl hab
        · obtain rfl := cmpChar_eq_iff.1 hab
          rcases h2' with hbc | ⟨hbc, h2r⟩
          · exact Or.inl hbc
          · obtain rfl := cmpChar_eq_iff.1 hbc
            exact Or.inr ⟨cmpChar_eq_iff.2 rfl, ih h1r h2r⟩

theorem cmpPreId_swap (a b : PreId) : (cmpPreId a b).swap = cmpPreId b a := by
  cases a <;> cases b <;> first
    | rfl
    | exact natCompare_swap ..
    | exact cmpChars_swap ..

theorem cmpPreId_eq_iff {a b : PreId} : cmpPreId a b = .eq ↔ a = b := by
  cases a <;> cases b <;> simp [cmpPreId, Nat.compare_eq_eq, cmpChars_eq_iff]

theorem cmpPreId_lt_trans {a b c : PreId} (h1 : cmpPreId a b = .lt) (h2 : cmpPreId b c = .lt) :
    cmpPreId a c = .lt := by
  cases a <;> cases b <;> cases c <;> simp_all [cmpPreId]
  · exact natCompare_lt_trans h1 h2
  · exact cmpChars_lt_trans h1 h2

theorem cmpPre_swap (s t : List PreId) : (cmpPre s t).swap = cmpPre t s := by
  induction s generalizing t with
  | nil => cases t <;> rfl
  | cons a as ih =>
    cases t with
    | nil => rfl
    | cons b bs =>
      show ((cmpPreId a b).then (cmpPre as bs)).swap = (cmpPreId b a).then (cmpPre bs as)
      rw [Ordering.swap_then, cmpPreId_swap, ih]

theorem cmpPre_eq_iff {s t : List PreId} : cmpPre s t = .eq ↔ s = t := by
  induction s generalizing t with
  | nil => cases t <;> simp [cmpPre]
  | cons a as ih =>
    cases t with
    | nil => simp [cmpPre]
    | cons b bs =>
      show (cmpPreId a b).then (cmpPre as bs) = .eq ↔ _
      rw [Ordering.then_eq_eq]
      simp [cmpPreId_eq_iff, ih]

theorem cmpPre_lt_trans {s t u : List PreId} (h1 : cmpPre s t = .lt)
    (h2 : cmpPre t u = .lt) : cmpPre s u = .lt := by
  induction s generalizing t u with
  | nil =>
    cases u with
    | nil => cases t <;> simp_all [cmpPre]
    | cons c cs => simp [cmpPre]
  | cons a as ih =>
    cases t with
    | nil => simp [cmpPre] at h1
    | cons b bs =>
      cases u with
      | nil => simp [cmpPre] at h2
      | cons c cs =>
        have h1' := Ordering.then_eq_lt.1 h1
        have h2' := Ordering.then_eq_lt.1 h2
        show (cmpPreId a c).then (cmpPre as cs) = .lt
        rw [Ordering.then_eq_lt]
        rcases h1' with hab | ⟨hab, h1r⟩
        · rcases h2' with hbc | ⟨hbc, h2r⟩
          · exact Or.inl (cmpPreId_lt_trans hab hbc)
          · obtain rfl := cmpPreId_eq_iff.1 hbc
            exact Or.inl hab
        · obtain rfl := cmpPreId_eq_iff.1 hab
          rcases h2' with hbc | ⟨hbc, h2r⟩
          · exact Or.inl hbc
          · obtain rfl := cmpPreId_eq_iff.1 hbc
            exact Or.inr ⟨cmpPreId_eq_iff.2 rfl, ih h1r h2r⟩

theorem cmpRelease_swap (s t : List PreId) : (cmpRelease s t).swap = cmpRelease t s := by
  cases s <;> cases t <;> first
    | rfl
    | exact cmpPre_swap ..

theorem cmpRelease_eq_iff {s t : List PreId} : cmpRelease s t = .eq ↔ s = t := by
  cases s <;> cases t <;> simp [cmpRelease, cmpPre_eq_iff]

theorem cmpRelease_lt_trans {s t u : List PreId} (h1 : cmpRelease s t = .lt)
    (h2 : cmpRelease t u = .lt) : cmpRelease s u = .lt := by
  cases s <;> cases t <;> cases u <;> simp_all [cmpRelease]
  exact cmpPre_lt_trans h1 h2

theorem cmpSemVer_swap (a b : SemVer) : (cmpSemVer a b).swap = cmpSemVer b a := by
  unfold cmpSemVer
  rw [Ordering.swap_then, Ordering.swap_then, Ordering.swap_then,
    natCompare_swap, natCompare_swap, natCompare_swap, cmpRelease_swap]

theorem cmpSemVer_eq_iff {a b : SemVer} : cmpSemVer a b = .eq ↔ a = b := by
  cases a; cases b
  simp [cmpSemVer, Ordering.then_eq_eq, Nat.compare_eq_eq, cmpRelease_eq_iff]

theorem cmpSemVer_lt_iff {a b : SemVer} : cmpSemVer a b = .lt ↔
    a.major < b.major ∨ (a.major = b.major ∧
      (a.minor < b.minor ∨ (a.minor = b.minor ∧
        (a.patch < b.patch ∨ (a.patch = b.patch ∧
          cmpRelease a.prerelease b.prerelease = .lt))))) := by
  simp [cmpSemVer, Ordering.then_eq_lt, Nat.compare_eq_lt, Nat.compare_eq_eq]

theorem cmpSemVer_lt_trans {a b c : SemVer} (h1 : cmpSemVer a b = .lt)
    (h2 : cmpSemVer b c = .lt) : cmpSemVer a c = .lt := by
  rw [cmpSemVer_lt_iff] at h1 h2 ⊢
  rcases h1 with h1 | ⟨e1, h1⟩
  · rcases h2 with h2 | ⟨e2, h2⟩
    · exact Or.inl (by omega)
    · exact Or.inl (by omega)
  · rcases h2 with h2 | ⟨e2, h2⟩
    · exact Or.inl (by omega)
    · refine Or.inr ⟨by omega, ?_⟩
      rcases h1 with h1 | ⟨f1, h1⟩
      · rcases h2 with h2 | ⟨f2, h2⟩
        · exact Or.inl (by omega)
        · exact Or.inl (by omega)
      · rcases h2 with h2 | ⟨f2, h2⟩
        · exact Or.inl (by omega)
        · refine Or.inr ⟨by omega, ?_⟩
          rcases h1 with h1 | ⟨g1, h1⟩
          · rcases h2 with h2 | ⟨g2, h2⟩
            · exact Or.inl (by omega)
            · exact Or.inl (by omega)
          · rcases h2 with h2 | ⟨g2, h2⟩
            · exact Or.inl (by omega)
            · exact Or.inr ⟨by omega, cmpRelease_lt_trans h1 h2⟩

theorem cmpSemVer_le_trans {a b c : SemVer} (h1 : cmpSemVer a b ≠ .gt)
    (h2 : cmpSemVer b c ≠ .gt) : cmpSemVer a c ≠ .gt := by
  have decompose : ∀ x y : SemVer, cmpSemVer x y ≠ .gt → cmpSemVer x y = .lt ∨ x = y := by
    intro x y h
    cases hxy : cmpSemVer x y with
    | lt => exact Or.inl rfl
    | eq => exact Or.inr (cmpSemVer_eq_iff.1 hxy)
    | gt => exact absurd hxy h
  rcases decompose a b h1 with hab | rfl
  · rcases decompose b c h2 with hbc | rfl
    · rw [cmpSemVer_lt_trans hab hbc]; intro h; cases h
    · rw [hab]; intro h; cases h
  · exact h2

theorem compareVersions_swap (v1 v2 : String) :
    (compareVersions v1 v2).swap = compareVersions v2 v1 := by
  unfold compareVersions
  cases parseVersion v1 <;> cases parseVersion v2 <;> first
    | rfl
    | exact cmpSemVer_swap ..

theorem compareVersions_refl (v : String) : compareVersions v v = .eq := by
  unfold compareVersions
  cases parseVersion v with
  | none => rfl
  | some a => exact cmpSemVer_eq_iff.2 rfl

theorem compareVersions_le_trans {a b c : String} (h1 : compareVersions a b ≠ .gt)
    (h2 : compareVersions b c ≠ .gt) : compareVersions a c ≠ .gt := by
  rcases hpa : parseVersion a with _ | pa <;>
    rcases hpb : parseVersion b with _ | pb <;>
    rcases hpc : parseVersion c with _ | pc <;>
    simp_all [compareVersions]
  exact cmpSemVer_le_trans h1 h2

theorem latestCmp_swap (v1 v2 : String) : (latestCmp v1 v2).swap = latestCmp v2 v1 := by
  unfold latestCmp
  rw [Ordering.swap_then, natCompare_swap, compareVersions_swap]

theorem latestCmp_refl (v : String) : latestCmp v v = .eq := by
  unfold latestCmp
  rw [Nat.compare_eq_eq.2 rfl, compareVersions_refl]
  rfl

theorem latestCmp_le_trans {a b c : String} (h1 : latestCmp a b ≠ .gt)
    (h2 : latestCmp b c ≠ .gt) : latestCmp a c ≠ .gt := by
  unfold latestCmp at *
  simp only [Ne, Ordering.then_eq_gt, not_or, not_and] at h1 h2 ⊢
  obtain ⟨h1r, h1v⟩ := h1
  obtain ⟨h2r, h2v⟩ := h2
  simp only [Nat.compare_eq_gt] at h1r h2r
  refine ⟨by simp only [Nat.compare_eq_gt]; omega, fun he => ?_⟩
  have he' := Nat.compare_eq_eq.1 he
  have hab : releaseRank a = releaseRank b := by omega
  have hbc : releaseRank b = releaseRank c := by omega
  exact compareVersions_le_trans (h1v (Nat.compare_eq_eq.2 hab))
    (h2v (Nat.compare_eq_eq.2 hbc))

theorem latestCmp_gt_of_rank {w m : String} (h : releaseRank m < releaseRank w) :
    latestCmp w m = .gt := by
  unfold latestCmp
  rw [Ordering.then_eq_gt]
  exact Or.inl (Nat.compare_eq_gt.2 h)

theorem selectLatest_foldl_spec (vs : List String) (acc : String) :
    (vs.foldl (fun best w => if latestCmp w best = .gt then w else best) acc = acc ∨
      vs.foldl (fun best w => if latestCmp w best = .gt then w else best) acc ∈ vs) ∧
    latestCmp acc (vs.foldl (fun best w => if latestCmp w best = .gt then w else best) acc) ≠ .gt ∧
    ∀ v ∈ vs, latestCmp v (vs.foldl (fun best w => if latestCmp w best = .gt then w else best) acc) ≠ .gt := by
  induction vs generalizing acc with
  | nil =>
    refine ⟨Or.inl rfl, ?_, by simp⟩
    rw [List.foldl_nil, latestCmp_refl]
    intro h; cases h
  | cons w ws ih =>
    rw [List.foldl_cons]
    obtain ⟨hmem, hle, hall⟩ := ih (if latestCmp w acc = .gt then w else acc)
    have hstepacc : latestCmp acc (if latestCmp w acc = .gt then w else acc) ≠ .gt := by
      by_cases h : latestCmp w acc = .gt
      · rw [if_pos h, ← latestCmp_swap w acc, h]
        intro h'; cases h'
      · rw [if_neg h, latestCmp_refl]
        intro h'; cases h'
    have hstepw : latestCmp w (if latestCmp w acc = .gt then w else acc) ≠ .gt := by
      by_cases h : latestCmp w acc = .gt
      · rw [if_pos h, latestCmp_refl]
        intro h'; cases h'
      · rw [if_neg h]; exact h
    refine ⟨?_, latestCmp_le_trans hstepacc hle, ?_⟩
    · rcases hmem with h | h
      · rw [h]
        by_cases hc : latestCmp w acc = .gt
        · rw [if_pos hc]; exact Or.inr (List.mem_cons_self w ws)
        · rw [if_neg hc]; exact Or.inl rfl
      · exact Or.inr (List.mem_cons_of_mem w h)
    · intro v hv
      rcases List.mem_cons.1 hv with rfl | hv'
      · exact latestCmp_le_trans hstepw hle
      · exact hall v hv'

theorem selectLatest_max (vs : List String) (h : vs ≠ []) :
    ∃ m, selectLatest vs = some m ∧ m ∈ vs ∧ ∀ v ∈ vs, latestCmp v m ≠ .gt := by
  cases vs with
  | nil => exact absurd rfl h
  | cons v tl =>
    obtain ⟨hmem, hle, hall⟩ := selectLatest_foldl_spec tl v
    refine ⟨_, rfl, ?_, ?_⟩
    · rcases hmem with h' | h'
      · rw [h']; exact List.mem_cons_self v tl
      · exact List.mem_cons_of_mem v h'
    · intro w hw
      rcases List.mem_cons.1 hw with rfl | hw'
      · exact hle
      · exact hall w hw'

/-! ## Store lemmas -/

theorem isPre_iff {s t : List Char} : isPre s t = true ↔ ∃ rest, t = s ++ rest := by
  induction s generalizing t with
  | nil => simp [isPre]
  | cons a as ih =>
    cases t with
    | nil => simp [isPre]
    | cons b bs =>
      simp only [isPre, Bool.and_eq_true, decide_eq_true_eq, ih, List.cons_append]
      constructor
      · rintro ⟨rfl, rest, rfl⟩
        exact ⟨rest, rfl⟩
      · rintro ⟨rest, h⟩
        injection h with h1 h2
        exact ⟨h1.symm, rest, h2⟩

theorem contains_iff {d q : String} :
    contains d q = true ↔ (d = q ∨ ∃ rest, d.data = q.data ++ '/' :: rest) := by
  unfold contains
  simp only [Bool.or_eq_true, decide_eq_true_eq, isPre_iff]
  constructor
  · rintro (h | ⟨rest, hr⟩)
    · exact Or.inl h
    · exact Or.inr ⟨rest, by simpa [List.append_assoc] using hr⟩
  · rintro (h | ⟨rest, hr⟩)
    · exact Or.inl h
    · exact Or.inr ⟨rest, by simpa [List.append_assoc] using hr⟩

theorem mem_moduleVersions {store : Store} {mp v : String} :
    v ∈ moduleVersions store mp ↔ ∃ m, m ∈ store ∧ m.modulePath = mp ∧ m.version = v := by
  unfold moduleVersions
  simp only [List.mem_map, List.mem_filter, decide_eq_true_eq]
  constructor
  · rintro ⟨m, ⟨hm, hmp⟩, hv⟩
    exact ⟨m, hm, hmp, hv⟩
  · rintro ⟨m, hm, hmp, hv⟩
    exact ⟨m, ⟨hm, hmp⟩, hv⟩

theorem findModule_eq_none_iff {store : Store} {mp v : String} :
    findModule store mp v = none ↔ v ∉ moduleVersions store mp := by
  unfold findModule
  rw [List.find?_eq_none]
  constructor
  · intro h hmem
    obtain ⟨m, hm, hmp, hv⟩ := mem_moduleVersions.1 hmem
    have := h m hm
    simp only [Bool.and_eq_true, decide_eq_true_eq, not_and] at this
    exact this hmp hv
  · intro h m hm
    simp only [Bool.and_eq_true, decide_eq_true_eq, not_and]
    intro hmp hv
    exact h (mem_moduleVersions.2 ⟨m, hm, hmp, hv⟩)

theorem findModule_some_spec {store : Store} {mp v : String} {m : Module}
    (h : findModule store mp v = some m) :
    m ∈ store ∧ m.modulePath = mp ∧ m.version = v := by
  have hmem := List.mem_of_find?_eq_some h
  have hp := List.find?_some h
  simp only [Bool.and_eq_true, decide_eq_true_eq] at hp
  exact ⟨hmem, hp.1, hp.2⟩

theorem firstSome_append_some {α β : Type} {f : α → Option β} {pre : List α} {a : α}
    {post : List α} {b : β} (hpre : ∀ p ∈ pre, f p = none) (ha : f a = some b) :
    firstSome f (pre ++ a :: post) = some b := by
  induction pre with
  | nil => simp [firstSome, ha]
  | cons x xs ih =>
    have hx := hpre x (List.mem_cons_self x xs)
    simp only [List.cons_append, firstSome, hx]
    exact ih fun p hp => hpre p (List.mem_cons_of_mem x hp)

/-! ## Claim theorems -/

set_option maxRecDepth 40000

/-- C5: `Compare` is a strict total order consistent with semantic-version
precedence — the comparator on parsed versions is antisymmetric under `swap`,
identifies exactly equal versions, and is transitive; prerelease identifiers
compare numerically when numeric, so `Compare("v1.1.0-beta.10",
"v1.1.0-beta.2") = Greater` and a release is greater than its prerelease:
`Compare("v1.0.0", "v1.0.0-alpha.1") = Greater`. -/
theorem compareStrictTotalOrder :
    (∀ a b : SemVer, (cmpSemVer a b).swap = cmpSemVer b a) ∧
    (∀ a b : SemVer, cmpSemVer a b = .eq ↔ a = b) ∧
    (∀ a b c : SemVer, cmpSemVer a b = .lt → cmpSemVer b c = .lt → cmpSemVer a c = .lt) ∧
    (∀ m n : Nat, cmpPreId (.num m) (.num n) = compare m n) ∧
    compareVersions "v1.1.0-beta.10" "v1.1.0-beta.2" = .gt ∧
    compareVersions "v1.0.0" "v1.0.0-alpha.1" = .gt :=
  ⟨cmpSemVer_swap, fun _ _ => cmpSemVer_eq_iff,
    fun _ _ _ => cmpSemVer_lt_trans, fun _ _ => rfl, by decide, by decide⟩

/-- Witness for C5: the transitivity component applied at concrete versions
`v1.0.0 < v1.1.0 < v2.0.0`. -/
theorem compareStrictTotalOrderWitness :
    cmpSemVer ⟨1, 0, 0, []⟩ ⟨1, 1, 0, []⟩ = .lt ∧
    cmpSemVer ⟨1, 1, 0, []⟩ ⟨2, 0, 0, []⟩ = .lt ∧
    cmpSemVer ⟨1, 0, 0, []⟩ ⟨2, 0, 0, []⟩ = .lt :=
  ⟨by decide, by decide,
    compareStrictTotalOrder.2.2.1 ⟨1, 0, 0, []⟩ ⟨1, 1, 0, []⟩ ⟨2, 0, 0, []⟩
      (by decide) (by decide)⟩

/-- C1 counterexample: on the candidate set of the test case "largest
release", resolving with the Latest sentinel returns `v1.0.0` even though
`v1.1.0-alpha.1` is strictly greater under `Compare` — the selector does
prefer release versions, contradicting the claim that Latest is exactly the
`Compare`-maximum with no such preference. -/
theorem selectLatestNotCompareMax :
    selectLatest ["v1.1.0-alpha.1", "v1.0.0", "v1.0.0-20190311183353-d8887717615a"]
      = some "v1.0.0" ∧
    compareVersions "v1.1.0-alpha.1" "v1.0.0" = .gt ∧
    legacyGetModuleInfo storeLatest "mod.1" .latest = .ok (modOne "v1.0.0") := by
  exact ⟨by decide, by decide, by decide⟩

/-- C1 (amended): for every non-empty candidate set, Latest selects a member
that is maximal in the release-preferring order: every release candidate
forces the selection to be a release, and the selection is a
`Compare`-maximum among the candidates of its own class (release versus
non-release); on the test fixture this selects `v1.0.0`. -/
theorem selectLatestPrefersReleases :
    (∀ vs : List String, vs ≠ [] → ∃ m, selectLatest vs = some m ∧ m ∈ vs ∧
      (∀ v ∈ vs, isReleaseVersion v = true → isReleaseVersion m = true) ∧
      (∀ v ∈ vs, isReleaseVersion v = isReleaseVersion m → compareVersions v m ≠ .gt)) ∧
    legacyGetModuleInfo storeLatest "mod.1" .latest = .ok (modOne "v1.0.0") := by
  constructor
  · intro vs h
    obtain ⟨m, hsel, hmem, hmax⟩ := selectLatest_max vs h
    refine ⟨m, hsel, hmem, ?_, ?_⟩
    · intro v hv hrel
      by_contra hm
      have hrank : releaseRank m < releaseRank v := by
        unfold releaseRank
        rw [hrel, if_pos rfl, if_neg hm]
        exact Nat.zero_lt_one
      exact hmax v hv (latestCmp_gt_of_rank hrank)
    · intro v hv heq
      have hrank : releaseRank v = releaseRank m := by
        unfold releaseRank
        rw [heq]
      have hle := hmax v hv
      unfold latestCmp at hle
      rw [hrank, Nat.compare_eq_eq.2 rfl] at hle
      have hthen : Ordering.eq.then (compareVersions v m) = compareVersions v m := rfl
      rw [hthen] at hle
      exact hle
  · decide

/-- Witness for C1's amended theorem: applied to the concrete candidate set
of the test, it yields a selection with the stated maximality properties. -/
theorem selectLatestPrefersReleasesWitness :
    (["v1.1.0-alpha.1", "v1.0.0", "v1.0.0-20190311183353-d8887717615a"] : List String) ≠ [] ∧
    ∃ m, selectLatest ["v1.1.0-alpha.1", "v1.0.0", "v1.0.0-20190311183353-d8887717615a"]
        = some m ∧
      m ∈ ["v1.1.0-alpha.1", "v1.0.0", "v1.0.0-20190311183353-d8887717615a"] ∧
      (∀ v ∈ ["v1.1.0-alpha.1", "v1.0.0", "v1.0.0-20190311183353-d8887717615a"],
        isReleaseVersion v = true → isReleaseVersion m = true) ∧
      (∀ v ∈ ["v1.1.0-alpha.1", "v1.0.0", "v1.0.0-20190311183353-d8887717615a"],
        isReleaseVersion v = isReleaseVersion m → compareVersions v m ≠ .gt) :=
  ⟨by decide, selectLatestPrefersReleases.1
    ["v1.1.0-alpha.1", "v1.0.0", "v1.0.0-20190311183353-d8887717615a"] (by decide)⟩

/-- C7: resolving the Latest sentinel over a module path with no persisted
versions fails with the `notFound` error (and no other outcome); the test
store contains no versions of `mod3`. -/
theorem selectLatestEmptyNotFound (store : Store) (mp : String)
    (h : moduleVersions store mp = []) :
    legacyGetModuleInfo store mp .latest = .error .notFound := by
  unfold legacyGetModuleInfo
  rw [h]
  rfl

/-- Witness for C7: the fixture store has no versions of `mod3`, and the
Latest resolution on it is the `notFound` error. -/
theorem selectLatestEmptyNotFoundWitness :
    moduleVersions storeVersions "mod3" = [] ∧
    legacyGetModuleInfo storeVersions "mod3" .latest = .error .notFound :=
  ⟨by decide, selectLatestEmptyNotFound storeVersions "mod3" (by decide)⟩

/-- C6: with a concrete module path and version, the version must be a member
of the persisted versions of that path or the call fails with `notFound`;
a successful call returns exactly the snapshot of that (path, version).  On
the fixture with versions v1.1.0, v1.0.2, v1.0.0, requesting v1.0.3 is
`notFound` and requesting v1.0.2 returns that snapshot. -/
theorem getModuleInfoMembership :
    (∀ (store : Store) (mp v : String),
       getModuleInfo store mp v = .error .notFound ↔ v ∉ moduleVersions store mp) ∧
    (∀ (store : Store) (mp v : String) (m : Module), getModuleInfo store mp v = .ok m →
       m ∈ store ∧ m.modulePath = mp ∧ m.version = v) ∧
    getModuleInfo storeVersions "mod.1" "v1.0.3" = .error .notFound ∧
    getModuleInfo storeVersions "mod.1" "v1.0.2" = .ok (modOne "v1.0.2") := by
  refine ⟨?_, ?_, by decide, by decide⟩
  · intro store mp v
    unfold getModuleInfo
    cases hfm : findModule store mp v with
    | none =>
      constructor
      · intro _
        exact findModule_eq_none_iff.1 hfm
      · intro _
        rfl
    | some m =>
      constructor
      · intro h
        cases h
      · intro hnot
        exfalso
        obtain ⟨hm, hmp, hv⟩ := findModule_some_spec hfm
        exact hnot (mem_moduleVersions.2 ⟨m, hm, hmp, hv⟩)
  · intro store mp v m h
    unfold getModuleInfo at h
    cases hfm : findModule store mp v with
    | none =>
      rw [hfm] at h
      cases h
    | some m' =>
      rw [hfm] at h
      cases h
      exact findModule_some_spec hfm

/-- Witness for C6: the membership components applied at the fixture. -/
theorem getModuleInfoMembershipWitness :
    (modOne "v1.0.2" ∈ storeVersions ∧ (modOne "v1.0.2").modulePath = "mod.1" ∧
      (modOne "v1.0.2").version = "v1.0.2") :=
  getModuleInfoMembership.2.1 storeVersions "mod.1" "v1.0.2" (modOne "v1.0.2") (by decide)

/-- C2: with the Unknown sentinel, the resolver scans the candidate module
paths (the `/`-boundary prefixes of the directory path, longest first) and
returns the first candidate on which Case A succeeds; on the nested-module
fixture, `Resolve("a/b/api", Unknown, Latest)` picks module `a/b/api` at
v2.0.0 while `Resolve("a/b/api", Unknown, "v1.0.0")` falls back to module
`a/b`, whose subtree match is the package `api`. -/
theorem resolveUnknownLongestPrefix :
    (∀ (store : Store) (dirPath : String) (vreq : VersionReq)
       (hasData : Module → String → Bool) (pre : List String) (mp : String)
       (post : List String) (r : String × String),
       candidateModulePaths dirPath = pre ++ mp :: post →
       (∀ p ∈ pre, resolveCaseA store p vreq hasData dirPath = none) →
       resolveCaseA store mp vreq hasData dirPath = some r →
       resolveModuleVersion store dirPath .unknown vreq hasData = some r) ∧
    candidateModulePaths "a/b/api" = ["a/b/api", "a/b", "a", "std"] ∧
    resolveModuleVersion storeC2 "a/b/api" .unknown .latest Module.hasPkgUnder
      = some ("a/b/api", "v2.0.0") ∧
    resolveModuleVersion storeC2 "a/b/api" .unknown (.concrete "v1.0.0") Module.hasPkgUnder
      = some ("a/b", "v1.0.0") ∧
    legacyGetDirectory storeC2 "a/b/api" .unknown (.concrete "v1.0.0") .all
      = .ok ⟨"a/b", "v1.0.0", "a/b/api", [pkgAB]⟩ := by
  refine ⟨?_, by decide, by decide, by decide, by decide⟩
  intro store dirPath vreq hasData pre mp post r hcand hpre hmp
  unfold resolveModuleVersion
  rw [hcand]
  exact firstSome_append_some hpre hmp

/-- Witness for C2: the first-success component applied with the full
candidate list of `a/b/api` and an empty failing prefix. -/
theorem resolveUnknownLongestPrefixWitness :
    candidateModulePaths "a/b/api" = [] ++ "a/b/api" :: ["a/b", "a", "std"] ∧
    resolveModuleVersion storeC2 "a/b/api" .unknown .latest Module.hasPkgUnder
      = some ("a/b/api", "v2.0.0") :=
  ⟨by decide,
    resolveUnknownLongestPrefix.1 storeC2 "a/b/api" .latest Module.hasPkgUnder
      [] "a/b/api" ["a/b", "a", "std"] ("a/b/api", "v2.0.0")
      (by decide) (fun p hp => absurd hp (List.not_mem_nil p)) (by decide)⟩

/-- C3 counterexample: the fixture persists readme `DIR_README.md`/"dir
readme" at directory `a.com/m/dir`, yet `GetDirectory` on that exact path
returns the module root's readme `README.md`/"readme", which differs — so the
returned readme is not the readme persisted at the matched directory path. -/
theorem getDirectoryReadmeCounterexample :
    (∃ m, m ∈ storeReadme ∧ ∃ d, d ∈ m.directories ∧ d.path = "a.com/m/dir" ∧
      d.readme = some ⟨"DIR_README.md", "dir readme"⟩) ∧
    getDirectory storeReadme "a.com/m/dir" (.concrete "a.com/m") (.concrete "v1.2.3")
      = .ok ⟨"a.com/m", "v1.2.3", ⟨"a.com/m/dir", some ⟨"README.md", "readme"⟩, none⟩⟩ ∧
    some (⟨"README.md", "readme"⟩ : Readme) ≠ some ⟨"DIR_README.md", "dir readme"⟩ := by
  exact ⟨by decide, by decide, by decide⟩

/-- C3 (amended): a successful `GetDirectory` returns the resolved module
path and version together with the directory record matched at the exact
query path, except that — per the golang/go#38513 workaround pinned by
`TestGetDirectory` — its readme field carries the module root directory's
readme instead of the matched directory's own. -/
theorem getDirectoryCarriesModuleReadme :
    (∀ (store : Store) (dirPath : String) (mreq : ModReq) (vreq : VersionReq)
       (vdir : VersionedDirectory),
       getDirectory store dirPath mreq vreq = .ok vdir →
       ∃ m d, findModule store vdir.modulePath vdir.version = some m ∧
         m.directories.find? (fun d0 => d0.path = dirPath) = some d ∧
         vdir.directory = { d with readme := rootReadme m }) ∧
    getDirectory storeReadme "a.com/m/dir" (.concrete "a.com/m") (.concrete "v1.2.3")
      = .ok ⟨"a.com/m", "v1.2.3", ⟨"a.com/m/dir", some ⟨"README.md", "readme"⟩, none⟩⟩ ∧
    getDirectory storeReadme "a.com/m/dir/p" (.concrete "a.com/m") (.concrete "v1.2.3")
      = .ok ⟨"a.com/m", "v1.2.3", ⟨"a.com/m/dir/p", some ⟨"README.md", "readme"⟩, some pkgP⟩⟩ := by
  refine ⟨?_, by decide, by decide⟩
  intro store dirPath mreq vreq vdir h
  unfold getDirectory at h
  cases hres : resolveModuleVersion store dirPath mreq vreq Module.hasDirUnder with
  | none =>
    rw [hres] at h
    cases h
  | some pv =>
    obtain ⟨mp, v⟩ := pv
    rw [hres] at h
    dsimp only at h
    cases hfm : findModule store mp v with
    | none =>
      rw [hfm] at h
      cases h
    | some m =>
      rw [hfm] at h
      dsimp only at h
      cases hfd : m.directories.find? (fun d0 => d0.path = dirPath) with
      | none =>
        rw [hfd] at h
        cases h
      | some d =>
        rw [hfd] at h
        dsimp only at h
        cases h
        exact ⟨m, d, hfm, hfd, rfl⟩

/-- Witness for C3's amended theorem: applied at the fixture's `dir` query. -/
theorem getDirectoryCarriesModuleReadmeWitness :
    ∃ m d, findModule storeReadme "a.com/m" "v1.2.3" = some m ∧
      m.directories.find? (fun d0 => d0.path = "a.com/m/dir") = some d ∧
      (⟨"a.com/m/dir", some ⟨"README.md", "readme"⟩, none⟩ : Directory)
        = { d with readme := rootReadme m } :=
  getDirectoryCarriesModuleReadme.1 storeReadme "a.com/m/dir" (.concrete "a.com/m")
    (.concrete "v1.2.3")
    ⟨"a.com/m", "v1.2.3", ⟨"a.com/m/dir", some ⟨"README.md", "readme"⟩, none⟩⟩ (by decide)

/-- C4: containment requires an exact segment boundary — `Contains` holds iff
the directory path equals the query or extends it across a `/`; a non-empty
proper prefix that does not end on a `/` boundary is never contained, and on
the stdlib fixture the query `archive/zi` (a non-boundary prefix of
`archive/zip`) resolves to `notFound` while `archive/zip` itself succeeds. -/
theorem containsSegmentBoundary :
    (∀ d q : String, contains d q = true ↔ (d = q ∨ ∃ rest, d.data = q.data ++ '/' :: rest)) ∧
    (∀ P Q : String, Q.data ≠ [] → Q ≠ P → (∃ rest, P.data = Q.data ++ rest) →
       (∀ rest, P.data ≠ Q.data ++ '/' :: rest) → contains P Q = false) ∧
    getPackagesInDirectory storeStd "archive/zi" "std" "v1.13.4" = .error .notFound ∧
    legacyGetDirectory storeStd "archive/zi" (.concrete "std") .latest .all
      = .error .notFound ∧
    legacyGetDirectory storeStd "archive/zip" (.concrete "std") .latest .all
      = .ok ⟨"std", "v1.13.4", "archive/zip", [mkPkg "zip" "archive/zip"]⟩ := by
  refine ⟨fun d q => contains_iff, ?_, by decide, by decide, by decide⟩
  intro P Q _ hQP _ hnb
  cases hc : contains P Q with
  | false => rfl
  | true =>
    rcases contains_iff.1 hc with h | ⟨rest, hr⟩
    · exact absurd h.symm hQP
    · exact absurd hr (hnb rest)

/-- Witness for C4: the boundary component applied at `P = "archive/zip"`,
`Q = "archive/zi"`. -/
theorem containsSegmentBoundaryWitness :
    contains "archive/zip" "archive/zi" = false :=
  containsSegmentBoundary.2.1 "archive/zip" "archive/zi" (by decide) (by decide)
    ⟨[ 'p' ], by decide⟩
    (fun rest h => by
      have hp : isPre (("archive/zi").data ++ [ '/' ]) (("archive/zip").data) = true :=
        isPre_iff.2 ⟨rest, by rw [h]; simp⟩
      exact absurd hp (by decide))

/-- C8: the field projector is pure and total — `minimal` replaces exactly
the rendered documentation payload with the fixed sentinel, leaving name,
path, synopsis, licenses and imports unchanged, and `all` is the identity;
on the fixture, a minimal-fields directory listing carries the sentinel as
its package documentation. -/
theorem fieldProjectorPure :
    (∀ p : Package, projectPackage .all p = p) ∧
    (∀ p : Package,
      (projectPackage .minimal p).name = p.name ∧
      (projectPackage .minimal p).path = p.path ∧
      (projectPackage .minimal p).synopsis = p.synopsis ∧
      (projectPackage .minimal p).licenses = p.licenses ∧
      (projectPackage .minimal p).imports = p.imports ∧
      (projectPackage .minimal p).documentationHTML = stringFieldMissing) ∧
    legacyGetDirectory storeReadme "a.com/m/dir" (.concrete "a.com/m")
        (.concrete "v1.2.3") .minimal
      = .ok ⟨"a.com/m", "v1.2.3", "a.com/m/dir",
          [{ pkgP with documentationHTML := stringFieldMissing }]⟩ :=
  ⟨fun _ => rfl, fun _ => ⟨rfl, rfl, rfl, rfl, rfl, rfl⟩, by decide⟩

/-- C9: `GetImportedBy` never reports an importer from the module named in
the query — every returned path belongs to a package of a module whose path
differs from the queried module path and whose imports include the queried
path; on the fixture, querying with `path2.to/foo` omits the package of
that module while still listing the one of `path3.to/foo`. -/
theorem getImportedByExcludesQueryModule :
    (∀ (store : Store) (path mp : String) (limit : Nat) (q : String),
       q ∈ getImportedBy store path mp limit →
       ∃ m, m ∈ store ∧ m.modulePath ≠ mp ∧ ∃ d, d ∈ m.directories ∧ ∃ p,
         d.package = some p ∧ p.path = q ∧ path ∈ p.imports) ∧
    getImportedBy storeImports "path.to/foo/bar" "path2.to/foo" 100
      = ["path3.to/foo/bar3"] ∧
    getImportedBy storeImports "path.to/foo/bar" "path.to/foo" 100
      = ["path2.to/foo/bar2", "path3.to/foo/bar3"] := by
  refine ⟨?_, by decide, by decide⟩
  intro store path mp limit q hq
  unfold getImportedBy at hq
  have hq1 := List.mem_of_mem_take hq
  rw [List.mem_flatten] at hq1
  obtain ⟨l, hl, hql⟩ := hq1
  rw [List.mem_map] at hl
  obtain ⟨m, hm, rfl⟩ := hl
  rw [List.mem_filter] at hm
  obtain ⟨hms, hmp⟩ := hm
  rw [List.mem_filterMap] at hql
  obtain ⟨p, hp, hpq⟩ := hql
  rw [List.mem_filterMap] at hp
  obtain ⟨d, hd, hdp⟩ := hp
  rw [decide_eq_true_eq] at hmp
  by_cases hc : p.imports.contains path = true
  · rw [if_pos hc] at hpq
    injection hpq with hpq
    exact ⟨m, hms, hmp, d, hd, p, hdp, hpq, List.elem_iff.1 hc⟩
  · rw [if_neg hc] at hpq
    cases hpq

/-- Witness for C9: the exclusion component applied at the fixture query. -/
theorem getImportedByExcludesQueryModuleWitness :
    ∃ m, m ∈ storeImports ∧ m.modulePath ≠ "path2.to/foo" ∧ ∃ d, d ∈ m.directories ∧
      ∃ p, d.package = some p ∧ p.path = "path3.to/foo/bar3" ∧
        "path.to/foo/bar" ∈ p.imports :=
  getImportedByExcludesQueryModule.1 storeImports "path.to/foo/bar" "path2.to/foo" 100
    "path3.to/foo/bar3" (by decide)

/-- C10: `hackUpDocumentation` rewrites every complete anchor whose href is
exactly `/pkg/X` (with an optional fragment, preserved after `?tab=doc`) and
leaves all other input byte-identical: plain text, an unterminated anchor,
malformed tags, a bare-fragment href, and the inner anchor of a directly
nested matching pair — exactly the eleven vectors of
`TestHackUpDocumentation`. -/
theorem hackUpDocumentationRewrites :
    hackUpDocumentation "nothing burger" = "nothing burger" ∧
    hackUpDocumentation "<a href=\"/pkg/foo\">foo</a>" = "<a href=\"/foo?tab=doc\">foo</a>" ∧
    hackUpDocumentation "<a href=\"/pkg/foo\"" = "<a href=\"/pkg/foo\"" ∧
    hackUpDocumentation "<a href=\"/pkg/foo\"><a href=\"/pkg/bar\">bar</a></a>"
      = "<a href=\"/foo?tab=doc\"><a href=\"/pkg/bar\">bar</a></a>" ∧
    hackUpDocumentation "<a href=\"/pkg/foo\">foo</a>\n\t\t   <a href=\"/pkg/bar\">bar</a>"
      = "<a href=\"/foo?tab=doc\">foo</a>\n\t\t   <a href=\"/bar?tab=doc\">bar</a>" ∧
    hackUpDocumentation "<ahref=\"/pkg/foo\">foo</a>" = "<ahref=\"/pkg/foo\">foo</a>" ∧
    hackUpDocumentation "<allhref=\"/pkg/foo\">foo</a>" = "<allhref=\"/pkg/foo\">foo</a>" ∧
    hackUpDocumentation "<a nothref=\"/pkg/foo\">foo</a>" = "<a nothref=\"/pkg/foo\">foo</a>" ∧
    hackUpDocumentation "<a href=\"/pkg/foo#identifier\">foo</a>"
      = "<a href=\"/foo?tab=doc#identifier\">foo</a>" ∧
    hackUpDocumentation "<a href=\"#identifier\">foo</a>" = "<a href=\"#identifier\">foo</a>" ∧
    hackUpDocumentation "<span id=\"Indirect.Type\"></span>func (in <a href=\"#Indirect\">Indirect</a>) Type() <a href=\"/pkg/reflect\">reflect</a>.<a href=\"/pkg/reflect#Type\">Type</a>"
      = "<span id=\"Indirect.Type\"></span>func (in <a href=\"#Indirect\">Indirect</a>) Type() <a href=\"/reflect?tab=doc\">reflect</a>.<a href=\"/reflect?tab=doc#Type\">Type</a>" := by
  exact ⟨by decide, by decide, by decide, by decide, by decide, by decide, by decide,
    by decide, by decide, by decide, by decide⟩

end Pkgsite
